import Mathlib

/-!
Shallow embedding of the thunderRAG python engine (`src/python-engine/app.py`)
and proofs about its ingest / query / delete / reset operations.

Modelling conventions:
* Python floats are modelled as rationals (`ℚ`); `math.sqrt` (an external
  library call) is passed in as an oracle `sqrt : ℚ → ℚ`.
* The Ollama embedding service (`_ollama_embed`) is an external collaborator;
  it is passed in as an oracle `embed : String → List ℚ`.  The empty list
  models the "returned no embedding" reply on which `_ollama_embed` raises
  `RuntimeError` (app.py lines 246-248); transport failures are not modelled.
* The Ollama generation service (`_ollama_generate`) is the oracle
  `gen : String → String`.
* The sqlite `chunks` table is a list of `(primary key, row)` pairs together
  with the next AUTOINCREMENT key; the faiss index (IndexIDMap2 over
  IndexFlatIP) is a dimension plus a list of `(id, vector)` entries in
  insertion order.  The persisted files `chunks.faiss` and `meta.json` are
  modelled as `Option` fields of the engine state (`none` = file absent).
* Python strings are sequences of code points; helpers below mirror
  `str.strip` / `str.lower` / slicing on `List Char` (ASCII data).
-/

namespace Engine

/-! ### Python string helpers -/

/-- Whitespace characters stripped by `str.strip()` (ASCII subset). -/
def pyIsSpace (c : Char) : Bool :=
  c = ' ' || c = '\t' || c = '\n' || c = '\r' || c = '\x0b' || c = '\x0c'

/-- Python `str.strip()` on a list of characters. -/
def stripChars (l : List Char) : List Char :=
  ((l.dropWhile pyIsSpace).reverse.dropWhile pyIsSpace).reverse

/-- Python `str.strip()`. -/
def pyStrip (s : String) : String :=
  String.mk (stripChars s.toList)

/-- Python `str.lower()` (ASCII). -/
def pyLower (s : String) : String :=
  String.mk (s.toList.map Char.toLower)

/-- Python slicing `s[:n]` for `n ≥ 0`. -/
def pyTake (n : Nat) (s : String) : String :=
  String.mk (s.toList.take n)

/-- Python `text.replace("\r\n", "\n")`: left-to-right, non-overlapping. -/
def replaceCrlf : List Char → List Char
  | [] => []
  | '\r' :: '\n' :: rest => '\n' :: replaceCrlf rest
  | c :: rest => c :: replaceCrlf rest

/-! ### `_chunk_text` (app.py lines 219-235)

The ingest endpoint always calls `_chunk_text(req.text)` with the default
`chunk_size = 1500`, `overlap = 200`, which is what is embedded here.  The
Python `while` loop advances `start` by `chunk_size - overlap = 1300 ≥ 1`
per iteration, so on a cleaned text of length `n` it runs at most `n`
iterations; `n` is therefore enough fuel for the structural recursion. -/

/-- One loop of `_chunk_text`: `start` scans `cleaned`, collecting stripped
nonempty slices of length `≤ 1500` and stepping back by the 200-char overlap.
Accumulator is kept reversed. -/
def chunkLoop : Nat → List Char → Nat → List (List Char) → List (List Char)
  | 0, _, _, acc => acc.reverse
  | fuel + 1, cleaned, start, acc =>
    let n := cleaned.length
    if start < n then
      let e := min n (start + 1500)
      let chunk := stripChars ((cleaned.drop start).take (e - start))
      let acc' := if chunk.isEmpty then acc else chunk :: acc
      if e ≥ n then acc'.reverse
      else chunkLoop fuel cleaned (e - 200) acc'
    else acc.reverse

/-- `_chunk_text(text)` with the default chunk size and overlap. -/
def chunk_text (text : String) : List String :=
  let cleaned := stripChars (replaceCrlf text.toList)
  if cleaned.isEmpty then []
  else (chunkLoop cleaned.length cleaned 0 []).map String.mk

/-! ### Data model -/

/-- Embedding vector (Python `List[float]`). -/
abbrev Vec := List ℚ

/-- JSON-like metadata value (`Any` in the pydantic models): the query path
only distinguishes strings, lists and everything else. -/
inductive Mval where
  | str (s : String)
  | arr (xs : List Mval)
  | other
deriving Repr

/-- Metadata dict (`Dict[str, Any]`); keys are unique, insertion ordered.
`json.dumps` at ingest and `json.loads` at query round-trip it, so it is
stored structurally. -/
abbrev Meta := List (String × Mval)

/-- One row of the sqlite `chunks` table (minus the primary key). -/
structure Row where
  doc_id : String
  chunk_index : Nat
  text : String
  metadata : Meta
deriving Repr

/-- The faiss index: `IndexIDMap2(IndexFlatIP(d))`.  `entries` maps external
ids to stored vectors, in insertion order; `ntotal = entries.length`. -/
structure FaissIndex where
  d : Nat
  entries : List (Nat × Vec)
deriving Repr

/-- In-memory engine state plus the two persisted artifacts.
`db`/`nextId` model the sqlite table, `faissFile` the `chunks.faiss`
snapshot, `metaFile` the `"dim"` entry of `meta.json` (the only key the
engine ever writes); `none` means the file is absent. -/
structure EngineState where
  db : List (Nat × Row)
  nextId : Nat
  index : Option FaissIndex
  dim : Option Nat
  faissFile : Option FaissIndex
  metaFile : Option Nat
deriving Repr

/-- Fresh state: empty table (first AUTOINCREMENT key is 1), no index, no
dimension, no persisted files. -/
def initialState : EngineState :=
  { db := [], nextId := 1, index := none, dim := none,
    faissFile := none, metaFile := none }

/-- Errors surfaced by the endpoints: `HTTPException(status, detail)` or an
uncaught `RuntimeError` (which FastAPI reports as a 500 server error). -/
inductive Err where
  | http (status : Nat) (detail : String)
  | runtimeError (msg : String)
deriving Repr, DecidableEq

/-! ### `_l2_normalize` (app.py lines 266-275) -/

/-- `_l2_normalize(vec)`: sum of squares; if `s <= 0` return the input
unchanged, else scale by `1.0 / math.sqrt(s)`. -/
def l2_normalize (sqrt : ℚ → ℚ) (vec : Vec) : Vec :=
  let s := vec.foldl (fun s v => s + v * v) 0
  if s ≤ 0 then vec
  else vec.map (fun v => v * (1 / sqrt s))

/-! ### faiss operations -/

/-- Inner product of two vectors. -/
def ip (u v : Vec) : ℚ := (List.zipWith (· * ·) u v).sum

/-- `_remove_faiss_ids` (app.py lines 202-209): batch removal by external id. -/
def removeIds (idx : FaissIndex) (ids : List Nat) : FaissIndex :=
  { idx with entries := idx.entries.filter (fun e => !(ids.contains e.1)) }

/-- Insert a scored hit into a list already sorted by non-increasing score. -/
def insertDesc (p : ℚ × Int) : List (ℚ × Int) → List (ℚ × Int)
  | [] => [p]
  | q :: rest => if q.1 < p.1 then p :: q :: rest else q :: insertDesc p rest

/-- Sort scored hits by non-increasing score (insertion sort; the tie order
among exactly equal scores is unspecified by faiss, so any total order by
score is a faithful model). -/
def sortDesc : List (ℚ × Int) → List (ℚ × Int)
  | [] => []
  | p :: rest => insertDesc p (sortDesc rest)

/-- Modelled library behavior of `index.search(q, k)` for an exact
inner-product index: the `k` best `(score, id)` pairs in non-increasing
score order, padded with id `-1` when fewer than `k` vectors are stored
(padding scores are irrelevant downstream because hydration skips id -1). -/
def faissSearch (idx : FaissIndex) (q : Vec) (k : Nat) : List (ℚ × Int) :=
  let scored := idx.entries.map (fun e => (ip q e.2, (e.1 : Int)))
  (sortDesc scored).take k ++ List.replicate (k - scored.length) ((0 : ℚ), (-1 : Int))

/-! ### Request / response models (app.py lines 76-132) -/

structure IngestRequest where
  id : String
  text : String
  metadata : Meta

structure IngestResponse where
  status : String
  chunks_ingested : Nat
deriving Repr, DecidableEq

structure ChatMessage where
  role : String
  content : String

/-- `QueryRequest`; pydantic enforces `1 ≤ top_k ≤ 50` before the handler
runs, which is outside this embedding. -/
structure QueryRequest where
  question : String
  top_k : Nat
  mode : String
  history : List ChatMessage

structure SourceChunk where
  chunk_id : Int
  doc_id : String
  text : String
  metadata : Meta
  score : ℚ

structure QueryResponse where
  answer : String
  sources : List SourceChunk

structure DeleteRequest where
  id : String

structure DeleteResponse where
  status : String
  chunks_deleted : Nat
deriving Repr, DecidableEq

structure ResetResponse where
  status : String
deriving Repr, DecidableEq

/-! ### History rendering and retrieval text (app.py lines 29-56) -/

/-- Loop body of `_render_history`: iterate over `reversed(msgs)`, keeping a
budget of `max_chars`; the accumulator is the Python `out_rev` list reversed
(so consing here matches `out_rev.append`), and the final string is the
newline join of `reversed(out_rev)`, stripped. -/
def renderLoop (max_chars : Nat) : List ChatMessage → List String → Nat → List String
  | [], out_rev, _ => out_rev
  | m :: rest, out_rev, used =>
    let role := pyLower (pyStrip m.role)
    let role := if role = "user" || role = "assistant" || role = "system" then role else "user"
    let label := if role = "user" then "User" else if role = "assistant" then "Assistant" else "System"
    let content := pyStrip m.content
    if content = "" then renderLoop max_chars rest out_rev used
    else
      let s := label ++ ": " ++ content
      let extra := s.toList.length + (if out_rev.isEmpty then 0 else 1)
      if used + extra > max_chars then out_rev
      else renderLoop max_chars rest (s :: out_rev) (used + extra)

/-- `_render_history(history, max_chars)`. -/
def render_history (history : List ChatMessage) (max_chars : Nat) : String :=
  pyStrip (String.intercalate "\n" (renderLoop max_chars history.reverse [] 0))

/-- `_build_retrieval_text(question, history)`. -/
def build_retrieval_text (question : String) (history : List ChatMessage) : String :=
  let q := pyStrip question
  let hist_text := render_history history 3500
  if hist_text = "" then q
  else pyTake 4000 ("Conversation:\n" ++ hist_text ++ "\n\nQuestion:\n" ++ q)

/-! ### Ingest (app.py lines 326-392) -/

/-- Rows of the `chunks` table belonging to `docId`
(`SELECT ... WHERE doc_id=?`). -/
def docRows (db : List (Nat × Row)) (docId : String) : List (Nat × Row) :=
  db.filter (fun e => e.2.doc_id == docId)

/-- The idempotent-replace prologue shared verbatim by `ingest`
(app.py lines 336-352) and `admin_delete` (app.py lines 515-532): delete the
doc's rows, remove the same primary keys from the index, and either collapse
index/dimension/files when the index drains to zero vectors or persist the
shrunk index. -/
def removeDoc (S : EngineState) (docId : String) : EngineState :=
  let existing_ids := (docRows S.db docId).map (·.1)
  if existing_ids.isEmpty then S
  else
    let db' := S.db.filter (fun e => !(e.2.doc_id == docId))
    match S.index with
    | none => { S with db := db' }
    | some idx =>
      let idx' := removeIds idx existing_ids
      if idx'.entries.isEmpty then
        { S with db := db', index := none, dim := none,
                 faissFile := none, metaFile := none }
      else
        { S with db := db', index := some idx', faissFile := some idx' }

/-- The embedding loop of `ingest` (app.py lines 355-368): embed each chunk,
fail on an empty embedding, fix the engine dimension (and write the sidecar)
on first use, fail on a dimension mismatch, and collect the normalized
vectors.  On failure the state mutated so far is returned alongside the
error, as in the Python (the lock does not roll anything back). -/
def embedChunks (sqrt : ℚ → ℚ) (embed : String → List ℚ) :
    List String → EngineState → List Vec → Except Err (List Vec) × EngineState
  | [], S, acc => (.ok acc.reverse, S)
  | ch :: rest, S, acc =>
    let vec := embed ch
    if vec.isEmpty then
      (.error (.runtimeError "Ollama embeddings returned no embedding"), S)
    else
      match S.dim with
      | none =>
        let S' := { S with dim := some vec.length, metaFile := some vec.length }
        embedChunks sqrt embed rest S' (l2_normalize sqrt vec :: acc)
      | some d =>
        if vec.length ≠ d then
          (.error (.http 500 ("Embedding dim mismatch: expected " ++ toString d
            ++ ", got " ++ toString vec.length)), S)
        else
          embedChunks sqrt embed rest S (l2_normalize sqrt vec :: acc)

/-- The insert epilogue of `ingest` (app.py lines 375-390): insert the rows
(obtaining consecutive AUTOINCREMENT keys), add the vectors under the same
ids, and persist the index snapshot. -/
def insertPhase (S : EngineState) (req : IngestRequest) (chunks : List String)
    (embedded : List Vec) (idx : FaissIndex) : Except Err IngestResponse × EngineState :=
  let pairs := (List.range chunks.length).zip chunks
  let newRows := pairs.map (fun p => (S.nextId + p.1, Row.mk req.id p.1 p.2 req.metadata))
  let inserted_ids := newRows.map (·.1)
  let idx' := { idx with entries := idx.entries ++ inserted_ids.zip embedded }
  (.ok ⟨"ok", chunks.length⟩,
   { S with db := S.db ++ newRows, nextId := S.nextId + chunks.length,
            index := some idx', faissFile := some idx' })

/-- `POST /ingest` (app.py lines 326-392). -/
def ingest (sqrt : ℚ → ℚ) (embed : String → List ℚ) (S : EngineState)
    (req : IngestRequest) : Except Err IngestResponse × EngineState :=
  let chunks := chunk_text req.text
  if chunks.isEmpty then (.ok ⟨"ok", 0⟩, S)
  else
    let S1 := removeDoc S req.id
    match embedChunks sqrt embed chunks S1 [] with
    | (.error e, S2) => (.error e, S2)
    | (.ok embedded, S2) =>
      match S2.index, S2.dim with
      | none, none => (.error (.http 500 "Index dimension unknown"), S2)
      | none, some d => insertPhase S2 req chunks embedded ⟨d, []⟩
      | some idx, _ => insertPhase S2 req chunks embedded idx

/-! ### Query (app.py lines 395-506) -/

/-- Hydration of one search hit (app.py lines 426-448): skip the `-1`
padding ids, skip ids with no metadata row, and otherwise build the
`SourceChunk` carrying the search score. -/
def hydrateOne (db : List (Nat × Row)) (p : ℚ × Int) : Option SourceChunk :=
  if p.2 == -1 then none
  else
    match db.find? (fun e => ((e.1 : Int)) == p.2) with
    | none => none
    | some e => some ⟨p.2, e.2.doc_id, e.2.text, e.2.metadata, p.1⟩

/-- The full hydration loop over the search results. -/
def hydrate (db : List (Nat × Row)) (results : List (ℚ × Int)) : List SourceChunk :=
  results.filterMap (hydrateOne db)

/-- An apostrophe, spelled via its code point. -/
def apoS : String := String.singleton (Char.ofNat 39)

/-- Detail string of the invalid-mode `HTTPException` (app.py line 402). -/
def modeErrDetail : String :=
  "mode must be " ++ apoS ++ "assistive" ++ apoS ++ " or " ++ apoS ++ "grounded" ++ apoS

/-- Metadata lines of one source block (app.py lines 455-465). -/
def metaLines (md : Meta) : List String :=
  let keyed := ["from", "to", "cc", "bcc", "subject", "date", "message_id"].filterMap
    (fun k =>
      match md.lookup k with
      | some (.str v) => if pyStrip v = "" then none else some (k ++ ": " ++ pyStrip v)
      | _ => none)
  match md.lookup "attachments" with
  | some (.arr xs) =>
    let files := xs.filterMap (fun x =>
      match x with
      | .str s => if pyStrip s = "" then none else some (pyStrip s)
      | _ => none)
    if files.isEmpty then keyed
    else keyed ++ ["attachments: " ++ String.intercalate ", " files]
  | _ => keyed

/-- One source block of the prompt context (app.py lines 467-473); `i` is the
1-based source number. -/
def contextPart (i : Nat) (h : SourceChunk) : String :=
  let meta_block := String.intercalate "\n" (metaLines h.metadata)
  if meta_block ≠ "" then
    "[Source " ++ toString i ++ " | doc_id=" ++ h.doc_id ++ " | chunk_id="
      ++ toString h.chunk_id ++ "]\nMetadata:\n" ++ meta_block ++ "\n\nText:\n" ++ h.text
  else
    "[Source " ++ toString i ++ " | doc_id=" ++ h.doc_id ++ " | chunk_id="
      ++ toString h.chunk_id ++ "]\n" ++ h.text

/-- The joined context string (app.py lines 452-475). -/
def buildContext (hits : List SourceChunk) : String :=
  String.intercalate "\n\n"
    ((List.range hits.length).zip hits |>.map (fun p => contextPart (p.1 + 1) p.2))

/-- The grounded-mode prompt (app.py lines 478-487). -/
def groundedPrompt (history_text question context : String) : String :=
  "You are a local assistant answering questions from an email archive. "
    ++ "Use ONLY the provided sources for factual claims about emails. "
    ++ "You may use the conversation to understand references like " ++ apoS
    ++ "that email" ++ apoS ++ ", but do not treat it as evidence. "
    ++ "If the sources do not contain the answer, say you don" ++ apoS ++ "t know.\n\n"
    ++ "Conversation (optional):\n" ++ history_text ++ "\n\n"
    ++ "Question: " ++ question ++ "\n\n"
    ++ "Sources:\n" ++ context ++ "\n\n"
    ++ "Answer:\n"

/-- The assistive-mode prompt (app.py lines 489-501). -/
def assistivePrompt (history_text question context : String) : String :=
  "You are a local assistant. You are helping the user with email-related tasks. "
    ++ "The provided sources are optional context from the user" ++ apoS ++ "s email archive. "
    ++ "Use them when relevant, and cite them using [Source N] when you rely on them. "
    ++ "If the user asks about who sent an email, the subject, recipients, or message-id, "
    ++ "answer by reading the sources (prefer metadata/headers). "
    ++ "If the user refers to an unspecified source among several, ask which [Source N] they mean. "
    ++ "If the sources do not contain the answer, still be helpful and answer from general knowledge, "
    ++ "but do not invent claims about what the sources say.\n\n"
    ++ "Conversation (optional):\n" ++ history_text ++ "\n\n"
    ++ "Question: " ++ question ++ "\n\n"
    ++ "Sources (optional):\n" ++ context ++ "\n\n"
    ++ "Answer:\n"

/-- Mode normalization `(req.mode or "assistive").strip().lower()`
(app.py line 400). -/
def normMode (m : String) : String :=
  pyLower (pyStrip (if m = "" then "assistive" else m))

/-- `POST /query` (app.py lines 395-506).  The handler never assigns any
engine-state field, so only the response (or error) is returned. -/
def query (sqrt : ℚ → ℚ) (embed : String → List ℚ) (gen : String → String)
    (S : EngineState) (req : QueryRequest) : Except Err QueryResponse :=
  let mode := normMode req.mode
  if !(mode = "assistive" || mode = "grounded") then
    .error (.http 400 modeErrDetail)
  else
    let retrieval_text := build_retrieval_text req.question req.history
    let search_k := req.top_k
    match S.index with
    | none => .error (.http 400 "index is empty")
    | some idx =>
      if idx.entries.isEmpty then .error (.http 400 "index is empty")
      else
        let qvec := embed retrieval_text
        if qvec.isEmpty then
          .error (.runtimeError "Ollama embeddings returned no embedding")
        else
          match S.dim with
          | none => .error (.http 500 "embedding dim mismatch")
          | some d =>
            if qvec.length ≠ d then .error (.http 500 "embedding dim mismatch")
            else
              let qn := l2_normalize sqrt qvec
              let hits := hydrate S.db (faissSearch idx qn search_k)
              let history_text := render_history req.history 12000
              let context := buildContext hits
              let prompt :=
                if mode = "grounded" then groundedPrompt history_text req.question context
                else assistivePrompt history_text req.question context
              .ok ⟨gen prompt, hits⟩

/-! ### Delete and reset (app.py lines 509-557) -/

/-- `POST /admin/delete` (app.py lines 509-534).  Its body duplicates the
replace prologue of `ingest` line for line, so it is expressed through
`removeDoc`. -/
def admin_delete (S : EngineState) (req : DeleteRequest) : DeleteResponse × EngineState :=
  let chunk_ids := (docRows S.db req.id).map (·.1)
  if chunk_ids.isEmpty then (⟨"ok", 0⟩, S)
  else (⟨"ok", chunk_ids.length⟩, removeDoc S req.id)

/-- `POST /admin/reset` (app.py lines 537-557): delete the database, index
snapshot and sidecar, and reconnect to a fresh empty database (whose
AUTOINCREMENT counter restarts at 1). -/
def admin_reset (_S : EngineState) : ResetResponse × EngineState :=
  (⟨"ok"⟩, initialState)

/-! ### Store/index consistency invariant -/

/-- Primary keys of the metadata rows. -/
def dbKeys (S : EngineState) : List Nat := S.db.map (·.1)

/-- External ids present in the vector index (none when the index is absent). -/
def indexIds (S : EngineState) : List Nat :=
  match S.index with
  | none => []
  | some idx => idx.entries.map (·.1)

/-- Consistency of the two stores at an operation boundary: primary keys and
index ids are duplicate-free, coincide as sets, and sit below the next
AUTOINCREMENT key. -/
structure Wf (S : EngineState) : Prop where
  db_nodup : (dbKeys S).Nodup
  idx_nodup : (indexIds S).Nodup
  mem_iff : ∀ k, k ∈ indexIds S ↔ k ∈ dbKeys S
  fresh : ∀ k ∈ dbKeys S, k < S.nextId

/-! ### Concrete fixtures used by the counterexample and witness theorems -/

/-- Identity stands in for `math.sqrt` where the concrete value is irrelevant
(on the inputs below it is only applied to 1, where it is exact). -/
def qid : ℚ → ℚ := fun q => q

/-- Embedding oracle answering the 1-dimensional vector `[1]` for any text. -/
def embed1 : String → List ℚ := fun _ => [1]

/-- Embedding oracle modelling Ollama returning an empty embedding. -/
def embedNone : String → List ℚ := fun _ => []

/-- Generation oracle returning an empty answer. -/
def gen0 : String → String := fun _ => ""

/-- State after ingesting document "A" with the single-chunk text "hello". -/
def SA : EngineState := (ingest qid embed1 initialState ⟨"A", "hello", []⟩).2

/-- A 1701-character text, which `_chunk_text` splits into two chunks
(characters 0-1499 and 1300-1700). -/
def longText : String := String.mk (List.replicate 1701 'a')

/-- State after ingesting document "A" with `longText`: two chunks, ids 1
and 2, both under doc_id "A". -/
def S1701 : EngineState := (ingest qid embed1 initialState ⟨"A", longText, []⟩).2

/-! ### Sorting lemmas for the search model -/

theorem perm_insertDesc (p : ℚ × Int) (l : List (ℚ × Int)) :
    List.Perm (insertDesc p l) (p :: l) := by
  induction l with
  | nil => simp [insertDesc]
  | cons q rest ih =>
    rw [insertDesc]
    split
    · exact List.Perm.refl _
    · exact (ih.cons q).trans (List.Perm.swap p q rest)

theorem sortDesc_perm (l : List (ℚ × Int)) : List.Perm (sortDesc l) l := by
  induction l with
  | nil => simp [sortDesc]
  | cons p rest ih => exact (perm_insertDesc p (sortDesc rest)).trans (ih.cons p)

theorem pairwise_insertDesc (p : ℚ × Int) (l : List (ℚ × Int))
    (h : l.Pairwise (fun a b => b.1 ≤ a.1)) :
    (insertDesc p l).Pairwise (fun a b => b.1 ≤ a.1) := by
  induction l with
  | nil => simp [insertDesc]
  | cons q rest ih =>
    rw [insertDesc]
    rcases h with - | ⟨hq, hrest⟩
    split
    · refine List.Pairwise.cons ?_ (List.Pairwise.cons hq hrest)
      intro b hb
      rcases List.mem_cons.1 hb with rfl | hb
      · exact le_of_lt (by assumption)
      · exact (hq b hb).trans (le_of_lt (by assumption))
    · refine List.Pairwise.cons ?_ (ih hrest)
      intro b hb
      have hb' : b ∈ p :: rest := (perm_insertDesc p rest).mem_iff.1 hb
      rcases List.mem_cons.1 hb' with rfl | hb'
      · exact le_of_not_lt (by assumption)
      · exact hq b hb'

theorem sortDesc_pairwise (l : List (ℚ × Int)) :
    (sortDesc l).Pairwise (fun a b => b.1 ≤ a.1) := by
  induction l with
  | nil => simp [sortDesc]
  | cons p rest ih => exact pairwise_insertDesc p (sortDesc rest) ih

/-! ### Hydration lemmas -/

theorem hydrateOne_score (db : List (Nat × Row)) (p : ℚ × Int) (c : SourceChunk)
    (h : hydrateOne db p = some c) : c.score = p.1 := by
  unfold hydrateOne at h
  split at h
  · exact absurd h (by simp)
  · split at h
    · exact absurd h (by simp)
    · cases h; rfl

theorem hydrateOne_pad (db : List (Nat × Row)) : hydrateOne db ((0 : ℚ), (-1 : Int)) = none := by
  simp [hydrateOne]

/-- A `filterMap` image, pushed through compatible projections, is a sublist
of the direct projection of the input. -/
theorem filterMap_map_sublist {α β γ : Type} (g : α → Option β) (f : α → γ) (f' : β → γ)
    (H : ∀ a b, g a = some b → f' b = f a) (l : List α) :
    List.Sublist ((l.filterMap g).map f') (l.map f) := by
  induction l with
  | nil => simp
  | cons a rest ih =>
    rw [List.filterMap_cons, List.map_cons]
    cases hg : g a with
    | none => exact ih.cons (f a)
    | some b => rw [List.map_cons, H a b hg]; exact ih.cons₂ (f a)

theorem filterMap_length_eq {α β : Type} (g : α → Option β) (l : List α)
    (h : ∀ a ∈ l, (g a).isSome) : (l.filterMap g).length = l.length := by
  induction l with
  | nil => rfl
  | cons a rest ih =>
    rw [List.filterMap_cons]
    cases hg : g a with
    | none => exact absurd (h a (List.mem_cons_self a rest)) (by simp [hg])
    | some b =>
      simp only [List.length_cons]
      rw [ih (fun x hx => h x (List.mem_cons_of_mem a hx))]

theorem hydrate_replicate_pad (db : List (Nat × Row)) (n : Nat) :
    hydrate db (List.replicate n ((0 : ℚ), (-1 : Int))) = [] := by
  induction n with
  | zero => rfl
  | succ m ih => rw [List.replicate_succ, hydrate, List.filterMap_cons, hydrateOne_pad]; exact ih

/-- The hydrated hits of a search: score-sorted in non-increasing order. -/
theorem hydrate_search_pairwise (db : List (Nat × Row)) (idx : FaissIndex) (q : Vec) (k : Nat) :
    (hydrate db (faissSearch idx q k)).Pairwise (fun a b => b.score ≤ a.score) := by
  unfold faissSearch hydrate
  rw [List.filterMap_append]
  have hpad := hydrate_replicate_pad db (k - (idx.entries.map (fun e => (ip q e.2, (e.1 : Int)))).length)
  rw [hydrate] at hpad
  rw [hpad, List.append_nil]
  have hsorted : ((sortDesc (idx.entries.map (fun e => (ip q e.2, (e.1 : Int))))).take k).Pairwise
      (fun a b : ℚ × Int => b.1 ≤ a.1) :=
    (sortDesc_pairwise _).sublist (List.take_sublist _ _)
  have hsub := filterMap_map_sublist (hydrateOne db) (fun p : ℚ × Int => p.1)
    (fun c : SourceChunk => c.score) (hydrateOne_score db)
    ((sortDesc (idx.entries.map (fun e => (ip q e.2, (e.1 : Int))))).take k)
  have hmap : ((sortDesc (idx.entries.map (fun e => (ip q e.2, (e.1 : Int))))).take k).map
      (fun p : ℚ × Int => p.1) |>.Pairwise (fun x y : ℚ => y ≤ x) :=
    List.pairwise_map.2 hsorted
  exact List.pairwise_map.1 (hmap.sublist hsub)

/-- The hydrated hits of a search: never more than `k` of them. -/
theorem hydrate_search_length_le (db : List (Nat × Row)) (idx : FaissIndex) (q : Vec) (k : Nat) :
    (hydrate db (faissSearch idx q k)).length ≤ k := by
  unfold faissSearch hydrate
  rw [List.filterMap_append]
  have hpad := hydrate_replicate_pad db (k - (idx.entries.map (fun e => (ip q e.2, (e.1 : Int)))).length)
  rw [hydrate] at hpad
  rw [hpad, List.append_nil]
  exact le_trans (List.length_filterMap_le _ _) (by simp [List.length_take])

/-- Hydration succeeds on any non-padding hit whose id has a metadata row. -/
theorem hydrateOne_isSome (db : List (Nat × Row)) (s : ℚ) (i : Nat) (r : Row)
    (hr : (i, r) ∈ db) : (hydrateOne db (s, (i : Int))).isSome := by
  rw [hydrateOne]
  have hne : ¬((((i : Nat) : Int) == (-1 : Int)) = true) := by
    simp only [beq_iff_eq]
    intro hcontra
    have h0 : (0 : Int) ≤ (i : Int) := Int.natCast_nonneg i
    omega
  rw [if_neg hne]
  have hsome : (db.find? (fun x => ((x.1 : Int)) == ((i : Nat) : Int))).isSome := by
    rw [List.find?_isSome]
    exact ⟨(i, r), hr, by simp⟩
  cases hfind : db.find? (fun x => ((x.1 : Int)) == ((i : Nat) : Int)) with
  | none => rw [hfind] at hsome; simp at hsome
  | some w => simp

/-- When every index id has a metadata row, a search hydrates to exactly
`min k ntotal` hits: nothing is padded and nothing is dropped. -/
theorem hydrate_search_length_eq (db : List (Nat × Row)) (idx : FaissIndex) (q : Vec) (k : Nat)
    (H : ∀ i ∈ idx.entries.map (·.1), ∃ r, (i, r) ∈ db) :
    (hydrate db (faissSearch idx q k)).length = min k idx.entries.length := by
  unfold faissSearch hydrate
  rw [List.filterMap_append]
  have hpad := hydrate_replicate_pad db (k - (idx.entries.map (fun e => (ip q e.2, (e.1 : Int)))).length)
  rw [hydrate] at hpad
  rw [hpad, List.append_nil]
  rw [filterMap_length_eq]
  · rw [List.length_take, (sortDesc_perm _).length_eq, List.length_map]
  · intro p hp
    have hp' : p ∈ idx.entries.map (fun e => (ip q e.2, (e.1 : Int))) :=
      (sortDesc_perm _).mem_iff.1 (List.mem_of_mem_take hp)
    rcases List.mem_map.1 hp' with ⟨e, he, rfl⟩
    have hid : e.1 ∈ idx.entries.map (·.1) := List.mem_map.2 ⟨e, he, rfl⟩
    rcases H e.1 hid with ⟨r, hr⟩
    exact hydrateOne_isSome db _ e.1 r hr

/-! ### State lemmas for the embedding loop -/

theorem embedChunks_state (sqrt : ℚ → ℚ) (embed : String → List ℚ) (l : List String)
    (S : EngineState) (acc : List Vec) :
    (embedChunks sqrt embed l S acc).2.db = S.db ∧
    (embedChunks sqrt embed l S acc).2.index = S.index ∧
    (embedChunks sqrt embed l S acc).2.nextId = S.nextId := by
  induction l generalizing S acc with
  | nil => exact ⟨rfl, rfl, rfl⟩
  | cons ch rest ih =>
    rw [embedChunks]
    split
    · exact ⟨rfl, rfl, rfl⟩
    · split
      · exact ih _ _
      · split
        · exact ⟨rfl, rfl, rfl⟩
        · exact ih _ _

theorem embedChunks_ok_length (sqrt : ℚ → ℚ) (embed : String → List ℚ) (l : List String)
    (S : EngineState) (acc : List Vec) (out : List Vec)
    (h : (embedChunks sqrt embed l S acc).1 = .ok out) :
    out.length = acc.length + l.length := by
  induction l generalizing S acc with
  | nil =>
    rw [embedChunks] at h
    cases h
    simp
  | cons ch rest ih =>
    rw [embedChunks] at h
    split at h
    · exact absurd h (by simp)
    · split at h
      · have := ih _ _ h
        simp only [List.length_cons] at this ⊢
        omega
      · split at h
        · exact absurd h (by simp)
        · have := ih _ _ h
          simp only [List.length_cons] at this ⊢
          omega

/-! ### Replace-prologue lemmas -/

/-- With duplicate-free primary keys, a key determines its row. -/
theorem uniqueRow {db : List (Nat × Row)} (hnd : (db.map (·.1)).Nodup)
    {k : Nat} {r r' : Row} (h : (k, r) ∈ db) (h' : (k, r') ∈ db) : r = r' := by
  induction db with
  | nil => cases h
  | cons e rest ih =>
    rw [List.map_cons, List.nodup_cons] at hnd
    rcases List.mem_cons.1 h with h1 | h1 <;> rcases List.mem_cons.1 h' with h2 | h2
    · simpa using h1.trans h2.symm
    · subst h1
      exact absurd (List.mem_map.2 ⟨(k, r'), h2, rfl⟩) hnd.1
    · subst h2
      exact absurd (List.mem_map.2 ⟨(k, r), h1, rfl⟩) hnd.1
    · exact ih hnd.2 h1 h2

theorem mem_docIds_iff {db : List (Nat × Row)} {docId : String} {k : Nat} :
    k ∈ (docRows db docId).map (·.1) ↔ ∃ r, (k, r) ∈ db ∧ r.doc_id = docId := by
  constructor
  · intro h
    rcases List.mem_map.1 h with ⟨e, he, rfl⟩
    rcases List.mem_filter.1 he with ⟨hmem, hbeq⟩
    exact ⟨e.2, hmem, by simpa using hbeq⟩
  · rintro ⟨r, hmem, hdoc⟩
    exact List.mem_map.2 ⟨(k, r), List.mem_filter.2 ⟨hmem, by simpa using hdoc⟩, rfl⟩

theorem mem_keptKeys_iff {db : List (Nat × Row)} {docId : String} {k : Nat} :
    k ∈ (db.filter (fun e => !(e.2.doc_id == docId))).map (·.1) ↔
      ∃ r, (k, r) ∈ db ∧ r.doc_id ≠ docId := by
  constructor
  · intro h
    rcases List.mem_map.1 h with ⟨e, he, rfl⟩
    rcases List.mem_filter.1 he with ⟨hmem, hbeq⟩
    exact ⟨e.2, hmem, by simpa using hbeq⟩
  · rintro ⟨r, hmem, hdoc⟩
    exact List.mem_map.2 ⟨(k, r), List.mem_filter.2 ⟨hmem, by simpa using hdoc⟩, rfl⟩

/-- After the replace prologue, no row for the document remains. -/
theorem removeDoc_docRows (S : EngineState) (docId : String) :
    docRows (removeDoc S docId).db docId = [] := by
  have hfilter : ∀ db : List (Nat × Row),
      docRows (db.filter (fun e => !(e.2.doc_id == docId))) docId = [] := by
    intro db
    rw [docRows, List.filter_filter]
    apply List.filter_eq_nil_iff.2
    intro e _
    simp
  rw [removeDoc]
  split
  · rename_i hempty
    have h0 : (docRows S.db docId).map (·.1) = [] := by
      simpa [List.isEmpty_iff] using hempty
    exact List.map_eq_nil_iff.1 h0
  · dsimp only
    cases hidx : S.index with
    | none => exact hfilter _
    | some idx =>
      dsimp only
      split
      · exact hfilter _
      · exact hfilter _

/-- The replace prologue either leaves the table unchanged (no prior rows)
or filters out exactly the document's rows. -/
theorem removeDoc_db_cases (S : EngineState) (docId : String) :
    (removeDoc S docId).db = S.db ∨
    (removeDoc S docId).db = S.db.filter (fun e => !(e.2.doc_id == docId)) := by
  rw [removeDoc]
  split
  · exact Or.inl rfl
  · dsimp only
    cases hidx : S.index with
    | none => exact Or.inr rfl
    | some idx =>
      dsimp only
      split
      · exact Or.inr rfl
      · exact Or.inr rfl

theorem removeDoc_nextId (S : EngineState) (docId : String) :
    (removeDoc S docId).nextId = S.nextId := by
  rw [removeDoc]
  split
  · rfl
  · dsimp only
    cases hidx : S.index with
    | none => rfl
    | some idx =>
      dsimp only
      split
      · rfl
      · rfl

/-! ### Preservation of the consistency invariant -/

theorem indexIds_none {S : EngineState} (h : S.index = none) : indexIds S = [] := by
  rw [indexIds, h]

theorem indexIds_some {S : EngineState} {idx : FaissIndex} (h : S.index = some idx) :
    indexIds S = idx.entries.map (·.1) := by
  rw [indexIds, h]

/-- An engine state with the same table, index and AUTOINCREMENT counter as a
consistent state is consistent. -/
theorem wf_congr {S T : EngineState} (h : Wf S) (hdb : T.db = S.db)
    (hidx : T.index = S.index) (hnext : T.nextId = S.nextId) : Wf T := by
  have hkeys : dbKeys T = dbKeys S := by rw [dbKeys, dbKeys, hdb]
  have hids : indexIds T = indexIds S := by rw [indexIds, indexIds, hidx]
  exact ⟨hkeys ▸ h.db_nodup, hids ▸ h.idx_nodup,
    fun k => hkeys ▸ hids ▸ h.mem_iff k, fun k hk => hnext ▸ h.fresh k (hkeys ▸ hk)⟩

theorem mem_removeIds_iff {idx : FaissIndex} {E : List Nat} {k : Nat} :
    k ∈ (removeIds idx E).entries.map (·.1) ↔
      (k ∈ idx.entries.map (·.1) ∧ k ∉ E) := by
  constructor
  · intro hk
    rcases List.mem_map.1 hk with ⟨e, he, rfl⟩
    rcases List.mem_filter.1 he with ⟨hmem, hb⟩
    refine ⟨List.mem_map.2 ⟨e, hmem, rfl⟩, ?_⟩
    simpa using hb
  · rintro ⟨hk, hnot⟩
    rcases List.mem_map.1 hk with ⟨e, he, rfl⟩
    exact List.mem_map.2 ⟨e, List.mem_filter.2 ⟨he, by simpa using hnot⟩, rfl⟩

/-- The replace prologue preserves store/index consistency. -/
theorem wf_removeDoc (S : EngineState) (docId : String) (h : Wf S) :
    Wf (removeDoc S docId) := by
  rw [removeDoc]
  split
  · exact h
  · dsimp only
    have hsub : List.Sublist ((S.db.filter (fun e => !(e.2.doc_id == docId))).map (·.1))
        (dbKeys S) := (List.filter_sublist _).map _
    have hnodup' : ((S.db.filter (fun e => !(e.2.doc_id == docId))).map (·.1)).Nodup :=
      h.db_nodup.sublist hsub
    have hfresh' : ∀ k ∈ (S.db.filter (fun e => !(e.2.doc_id == docId))).map (·.1),
        k < S.nextId := fun k hk => h.fresh k (hsub.subset hk)
    have hkept : ∀ k : Nat, k ∈ (S.db.filter (fun e => !(e.2.doc_id == docId))).map (·.1) ↔
        (k ∈ dbKeys S ∧ k ∉ (docRows S.db docId).map (·.1)) := by
      intro k
      constructor
      · intro hk
        rcases mem_keptKeys_iff.1 hk with ⟨r, hmem, hdoc⟩
        refine ⟨List.mem_map.2 ⟨(k, r), hmem, rfl⟩, ?_⟩
        intro hcontra
        rcases mem_docIds_iff.1 hcontra with ⟨r', hmem', hdoc'⟩
        exact hdoc (uniqueRow h.db_nodup hmem hmem' ▸ hdoc')
      · rintro ⟨hdb, hnotE⟩
        rcases List.mem_map.1 hdb with ⟨e, he, rfl⟩
        refine mem_keptKeys_iff.2 ⟨e.2, he, ?_⟩
        intro hdoc
        exact hnotE (mem_docIds_iff.2 ⟨e.2, he, hdoc⟩)
    cases hidx : S.index with
    | none =>
      dsimp only
      have hids : indexIds S = [] := indexIds_none hidx
      refine ⟨hnodup', ?_, ?_, hfresh'⟩
      · rw [indexIds_none rfl]
        exact List.nodup_nil
      · intro k
        rw [indexIds_none rfl]
        constructor
        · intro hk
          cases hk
        · intro hk
          have hk' := (hkept k).1 hk
          have h2 := (h.mem_iff k).2 hk'.1
          rw [hids] at h2
          cases h2
    | some idx =>
      dsimp only
      have hids : indexIds S = idx.entries.map (·.1) := indexIds_some hidx
      split
      · rename_i hdrain
        have hdrain' : (removeIds idx ((docRows S.db docId).map (·.1))).entries = [] := by
          simpa [List.isEmpty_iff] using hdrain
        refine ⟨hnodup', ?_, ?_, hfresh'⟩
        · rw [indexIds_none rfl]
          exact List.nodup_nil
        · intro k
          rw [indexIds_none rfl]
          constructor
          · intro hk
            cases hk
          · intro hk
            have hk' := (hkept k).1 hk
            have hmemIdx : k ∈ idx.entries.map (·.1) := by
              have h2 := (h.mem_iff k).2 hk'.1
              rwa [hids] at h2
            have h3 : k ∈ (removeIds idx ((docRows S.db docId).map (·.1))).entries.map (·.1) :=
              mem_removeIds_iff.2 ⟨hmemIdx, hk'.2⟩
            rw [hdrain'] at h3
            cases h3
      · have hsubIdx : List.Sublist
            ((removeIds idx ((docRows S.db docId).map (·.1))).entries.map (·.1))
            (idx.entries.map (·.1)) := (List.filter_sublist _).map _
        refine ⟨hnodup', ?_, ?_, hfresh'⟩
        · rw [indexIds_some rfl]
          exact (hids ▸ h.idx_nodup).sublist hsubIdx
        · intro k
          rw [indexIds_some rfl, mem_removeIds_iff]
          have h2 : k ∈ idx.entries.map (·.1) ↔ k ∈ dbKeys S := by
            rw [← hids]
            exact h.mem_iff k
          rw [h2]
          exact (hkept k).symm

/-- The insert epilogue yields a consistent state when the incoming pieces
are consistent and the embedded batch matches the chunk list. -/
theorem wf_insertPhase (S : EngineState) (req : IngestRequest) (chunks : List String)
    (embedded : List Vec) (idx : FaissIndex)
    (hnd : (dbKeys S).Nodup)
    (hidxnd : (idx.entries.map (·.1)).Nodup)
    (hmem : ∀ k, k ∈ idx.entries.map (·.1) ↔ k ∈ dbKeys S)
    (hfresh : ∀ k ∈ dbKeys S, k < S.nextId)
    (hlen : embedded.length = chunks.length) :
    Wf (insertPhase S req chunks embedded idx).2 := by
  rw [insertPhase]
  dsimp only
  have hfst : ((List.range chunks.length).zip chunks).map Prod.fst = List.range chunks.length :=
    List.map_fst_zip _ _ (by simp)
  have hkeysNew :
      (((List.range chunks.length).zip chunks).map
        (fun p => (S.nextId + p.1, Row.mk req.id p.1 p.2 req.metadata))).map (·.1) =
      (List.range chunks.length).map (fun i => S.nextId + i) := by
    rw [List.map_map]
    rw [show ((fun x : Nat × Row => x.1) ∘ fun p : Nat × String =>
      (S.nextId + p.1, Row.mk req.id p.1 p.2 req.metadata)) =
      ((fun i => S.nextId + i) ∘ Prod.fst) from rfl]
    rw [← List.map_map, hfst]
  have hNewNodup : ((List.range chunks.length).map (fun i => S.nextId + i)).Nodup :=
    (List.nodup_range _).map (fun a b hab => by omega)
  have hmemNew : ∀ k : Nat, k ∈ (List.range chunks.length).map (fun i => S.nextId + i) ↔
      ∃ i, i < chunks.length ∧ k = S.nextId + i := by
    intro k
    constructor
    · intro hk
      rcases List.mem_map.1 hk with ⟨i, hi, rfl⟩
      exact ⟨i, List.mem_range.1 hi, rfl⟩
    · rintro ⟨i, hi, rfl⟩
      exact List.mem_map.2 ⟨i, List.mem_range.2 hi, rfl⟩
  have hlenIds :
      ((((List.range chunks.length).zip chunks).map
        (fun p => (S.nextId + p.1, Row.mk req.id p.1 p.2 req.metadata))).map (·.1)).length =
      chunks.length := by
    rw [hkeysNew, List.length_map, List.length_range]
  have hzipFst :
      (((((List.range chunks.length).zip chunks).map
          (fun p => (S.nextId + p.1, Row.mk req.id p.1 p.2 req.metadata))).map (·.1)).zip
        embedded).map Prod.fst =
      (((List.range chunks.length).zip chunks).map
        (fun p => (S.nextId + p.1, Row.mk req.id p.1 p.2 req.metadata))).map (·.1) :=
    List.map_fst_zip _ _ (by rw [hlenIds, hlen])
  have hdisj : ∀ k : Nat, k ∈ dbKeys S →
      k ∈ (List.range chunks.length).map (fun i => S.nextId + i) → False := by
    intro k hk hknew
    rcases (hmemNew k).1 hknew with ⟨i, hi, rfl⟩
    have := hfresh _ hk
    omega
  constructor
  · show ((S.db ++ _).map (·.1)).Nodup
    rw [List.map_append, hkeysNew]
    exact List.Nodup.append hnd hNewNodup (fun k hk hknew => hdisj k hk hknew)
  · show ((idx.entries ++ _).map (·.1)).Nodup
    rw [List.map_append, hzipFst, hkeysNew]
    refine List.Nodup.append hidxnd hNewNodup ?_
    intro k hk hknew
    exact hdisj k ((hmem k).1 hk) hknew
  · intro k
    show k ∈ (idx.entries ++ _).map (·.1) ↔ k ∈ (S.db ++ _).map (·.1)
    rw [List.map_append, List.map_append, hzipFst, hkeysNew, List.mem_append, List.mem_append,
      hmem k, dbKeys]
  · intro k hk
    show k < S.nextId + chunks.length
    rw [dbKeys] at hk
    rw [List.map_append, hkeysNew, List.mem_append] at hk
    rcases hk with hk | hk
    · have := hfresh k hk
      omega
    · rcases (hmemNew k).1 hk with ⟨i, hi, rfl⟩
      omega

/-- Ingest preserves store/index consistency on every control path,
including the failure paths that leave a partially mutated state. -/
theorem wf_ingest (sqrt : ℚ → ℚ) (embed : String → List ℚ) (S : EngineState)
    (req : IngestRequest) (h : Wf S) : Wf (ingest sqrt embed S req).2 := by
  rw [ingest]
  split
  · exact h
  · dsimp only
    have h1 : Wf (removeDoc S req.id) := wf_removeDoc S req.id h
    rcases hE : embedChunks sqrt embed (chunk_text req.text) (removeDoc S req.id) []
      with ⟨res, S2⟩
    have hstate := embedChunks_state sqrt embed (chunk_text req.text) (removeDoc S req.id) []
    rw [hE] at hstate
    have h2 : Wf S2 := wf_congr h1 hstate.1 hstate.2.1 hstate.2.2
    cases res with
    | error e => exact h2
    | ok embedded =>
      dsimp only
      have hlen : embedded.length = (chunk_text req.text).length := by
        have hok : (embedChunks sqrt embed (chunk_text req.text) (removeDoc S req.id) []).1 =
            .ok embedded := by rw [hE]
        have := embedChunks_ok_length sqrt embed (chunk_text req.text)
          (removeDoc S req.id) [] embedded hok
        simpa using this
      cases hidx2 : S2.index with
      | none =>
        cases hdim2 : S2.dim with
        | none => exact h2
        | some d =>
          have hempty : ∀ k : Nat, k ∈ dbKeys S2 → False := by
            intro k hk
            have h3 := (h2.mem_iff k).2 hk
            rw [indexIds_none hidx2] at h3
            cases h3
          exact wf_insertPhase S2 req (chunk_text req.text) embedded ⟨d, []⟩ h2.db_nodup
            (by simp) (fun k => ⟨fun hk => (nomatch hk), fun hk => absurd hk (hempty k)⟩)
            h2.fresh hlen
      | some idx =>
        have hidxnd : (idx.entries.map (·.1)).Nodup := by
          have := h2.idx_nodup
          rwa [indexIds_some hidx2] at this
        have hmem : ∀ k, k ∈ idx.entries.map (·.1) ↔ k ∈ dbKeys S2 := by
          intro k
          have := h2.mem_iff k
          rwa [indexIds_some hidx2] at this
        exact wf_insertPhase S2 req (chunk_text req.text) embedded idx h2.db_nodup
          hidxnd hmem h2.fresh hlen

/-- Delete preserves store/index consistency. -/
theorem wf_admin_delete (S : EngineState) (req : DeleteRequest) (h : Wf S) :
    Wf (admin_delete S req).2 := by
  rw [admin_delete]
  split
  · exact h
  · exact wf_removeDoc S req.id h

/-- The fresh (and post-reset) state is consistent. -/
theorem wf_initialState : Wf initialState := by
  refine ⟨?_, ?_, ?_, ?_⟩ <;> simp [initialState, dbKeys, indexIds]

/-- A successful query was served from a present index, and its source list
is exactly the hydration of the top-k search on the normalized embedding of
the retrieval text. -/
theorem query_ok_sources (sqrt : ℚ → ℚ) (embed : String → List ℚ) (gen : String → String)
    (S : EngineState) (req : QueryRequest) (resp : QueryResponse)
    (hok : query sqrt embed gen S req = .ok resp) :
    ∃ idx, S.index = some idx ∧
      resp.sources = hydrate S.db (faissSearch idx
        (l2_normalize sqrt (embed (build_retrieval_text req.question req.history)))
        req.top_k) := by
  rw [query] at hok
  dsimp only at hok
  split at hok
  · exact absurd hok (by simp)
  · split at hok
    · exact absurd hok (by simp)
    · rename_i idx heq
      split at hok
      · exact absurd hok (by simp)
      · split at hok
        · exact absurd hok (by simp)
        · split at hok
          · exact absurd hok (by simp)
          · split at hok
            · exact absurd hok (by simp)
            · rw [Except.ok.injEq] at hok
              refine ⟨idx, heq, ?_⟩
              rw [← hok]

/-- Extract the payload of a successful query (used to state witnesses). -/
def respOf (e : Except Err QueryResponse) : QueryResponse :=
  match e with
  | .ok r => r
  | .error _ => ⟨"", []⟩

theorem insertPhase_result (S : EngineState) (req : IngestRequest) (chunks : List String)
    (embedded : List Vec) (idx : FaissIndex) :
    (insertPhase S req chunks embedded idx).1 = .ok ⟨"ok", chunks.length⟩ ∧
    (insertPhase S req chunks embedded idx).2.db =
      S.db ++ ((List.range chunks.length).zip chunks).map
        (fun p => (S.nextId + p.1, Row.mk req.id p.1 p.2 req.metadata)) ∧
    (insertPhase S req chunks embedded idx).2.dim = S.dim :=
  ⟨rfl, rfl, rfl⟩

theorem docRows_append (a b : List (Nat × Row)) (docId : String) :
    docRows (a ++ b) docId = docRows a docId ++ docRows b docId :=
  List.filter_append a b

theorem removeDoc_dim_none (S : EngineState) (docId : String) (h : S.dim = none) :
    (removeDoc S docId).dim = none := by
  rw [removeDoc]
  split
  · exact h
  · dsimp only
    cases hidx : S.index with
    | none => exact h
    | some idx =>
      dsimp only
      split
      · rfl
      · exact h

/-- When the document's removal drains the index, the replace prologue
resets index, dimension and both persisted files. -/
theorem removeDoc_collapse (S : EngineState) (docId : String) (idx : FaissIndex)
    (hidx : S.index = some idx)
    (hex : docRows S.db docId ≠ [])
    (hdrain : (removeIds idx ((docRows S.db docId).map (·.1))).entries = []) :
    removeDoc S docId =
      { S with db := S.db.filter (fun e => !(e.2.doc_id == docId)),
               index := none, dim := none, faissFile := none, metaFile := none } := by
  rw [removeDoc]
  rw [if_neg (by
    intro hcontra
    exact hex (List.map_eq_nil_iff.1 (List.isEmpty_iff.1 hcontra)))]
  dsimp only
  rw [hidx]
  dsimp only
  rw [if_pos (by rw [hdrain]; rfl)]

/-- On a document with stored rows, delete's state transition is exactly the
replace prologue. -/
theorem admin_delete_state (S : EngineState) (req : DeleteRequest)
    (hne : docRows S.db req.id ≠ []) :
    (admin_delete S req).2 = removeDoc S req.id := by
  rw [admin_delete]
  rw [if_neg (by
    intro hcontra
    exact hne (List.map_eq_nil_iff.1 (List.isEmpty_iff.1 hcontra)))]

/-- The embedding loop with a constant nonempty embedding, in a state whose
dimension is already that embedding's length, succeeds collecting one
normalized vector per chunk and leaves the state unchanged. -/
theorem embedChunks_const_dimSome (sqrt : ℚ → ℚ) (v : Vec) (l : List String)
    (S : EngineState) (acc : List Vec) (hv : v.isEmpty = false)
    (hdim : S.dim = some v.length) :
    embedChunks sqrt (fun _ => v) l S acc =
      (.ok (acc.reverse ++ l.map (fun _ => l2_normalize sqrt v)), S) := by
  induction l generalizing acc with
  | nil => rw [embedChunks]; simp
  | cons ch rest ih =>
    rw [embedChunks]
    rw [if_neg (by rw [hv]; exact fun hcontra => nomatch hcontra)]
    rw [hdim]
    dsimp only
    rw [if_neg (fun hcontra => hcontra rfl)]
    rw [ih (l2_normalize sqrt v :: acc)]
    simp [List.append_assoc]

/-- The embedding loop with a constant nonempty embedding, from a state with
no committed dimension, fixes the dimension (and writes the sidecar) from
the first chunk and then succeeds. -/
theorem embedChunks_const_dimNone (sqrt : ℚ → ℚ) (v : Vec) (l : List String)
    (S : EngineState) (acc : List Vec) (hv : v.isEmpty = false)
    (hdim : S.dim = none) (hne : l ≠ []) :
    embedChunks sqrt (fun _ => v) l S acc =
      (.ok (acc.reverse ++ l.map (fun _ => l2_normalize sqrt v)),
       { S with dim := some v.length, metaFile := some v.length }) := by
  cases l with
  | nil => exact absurd rfl hne
  | cons ch rest =>
    rw [embedChunks]
    rw [if_neg (by rw [hv]; exact fun hcontra => nomatch hcontra)]
    rw [hdim]
    dsimp only
    rw [embedChunks_const_dimSome sqrt v rest _ (l2_normalize sqrt v :: acc) hv rfl]
    simp [List.append_assoc]

/-- An ingest whose replace prologue leaves no committed dimension (either
because there was none or because the prologue collapsed it) succeeds with a
constant nonempty embedding and fixes the dimension to that embedding's
length — whatever dimension was committed before. -/
theorem ingest_after_removeDoc (sqrt : ℚ → ℚ) (v : Vec) (S : EngineState)
    (req : IngestRequest)
    (hdim1 : (removeDoc S req.id).dim = none) (hv : v.isEmpty = false)
    (hchunks : (chunk_text req.text).isEmpty = false) :
    (ingest sqrt (fun _ => v) S req).1 = .ok ⟨"ok", (chunk_text req.text).length⟩ ∧
    (ingest sqrt (fun _ => v) S req).2.dim = some v.length := by
  rw [ingest]
  rw [if_neg (by rw [hchunks]; exact fun hcontra => nomatch hcontra)]
  dsimp only
  have hne : chunk_text req.text ≠ [] := by
    intro hnil
    rw [hnil] at hchunks
    exact absurd hchunks (by simp)
  rw [embedChunks_const_dimNone sqrt v _ _ _ hv hdim1 hne]
  dsimp only
  cases hidx2 : (removeDoc S req.id).index with
  | none => exact ⟨rfl, rfl⟩
  | some idx => exact ⟨rfl, rfl⟩

/-- When the document had rows, every one of its vector ids is gone from
whatever index survives the replace prologue. -/
theorem removeDoc_removed (S : EngineState) (docId : String)
    (hne : docRows S.db docId ≠ []) :
    ∀ idx', (removeDoc S docId).index = some idx' →
      ∀ k ∈ (docRows S.db docId).map (·.1), ¬ k ∈ idx'.entries.map (·.1) := by
  rw [removeDoc]
  rw [if_neg (by
    intro hcontra
    exact hne (List.map_eq_nil_iff.1 (List.isEmpty_iff.1 hcontra)))]
  dsimp only
  cases hidx : S.index with
  | none =>
    dsimp only
    intro idx' hidx'
    exact (nomatch hidx')
  | some idx =>
    dsimp only
    split
    · dsimp only
      intro idx' hidx'
      exact (nomatch hidx')
    · dsimp only
      intro idx' hidx' k hk hmem
      have h2 := Option.some.inj hidx'
      rw [← h2] at hmem
      exact (mem_removeIds_iff.1 hmem).2 hk

theorem docRows_insertPhase (S2 : EngineState) (req : IngestRequest) (chunks : List String)
    (embedded : List Vec) (idx : FaissIndex) :
    (docRows (insertPhase S2 req chunks embedded idx).2.db req.id).map (·.2) =
      (docRows S2.db req.id).map (·.2) ++
        ((List.range chunks.length).zip chunks).map
          (fun p => Row.mk req.id p.1 p.2 req.metadata) := by
  have h2 := (insertPhase_result S2 req chunks embedded idx).2.1
  rw [h2, docRows_append, List.map_append]
  congr 1
  have hfilter : docRows (((List.range chunks.length).zip chunks).map
      (fun p => (S2.nextId + p.1, Row.mk req.id p.1 p.2 req.metadata))) req.id =
      ((List.range chunks.length).zip chunks).map
      (fun p => (S2.nextId + p.1, Row.mk req.id p.1 p.2 req.metadata)) := by
    rw [docRows]
    apply List.filter_eq_self.mpr
    intro e he
    rcases List.mem_map.1 he with ⟨p, hp, rfl⟩
    simp
  rw [hfilter, List.map_map]
  rfl

/-! ### Claim theorems -/

set_option maxRecDepth 2000000

/-- C1: the claim that a query's source list never repeats a `doc_id` is
false on the code: the query handler (app.py lines 424-448) hydrates the raw
search hits with no per-document deduplication.  Concretely, ingesting one
document "A" whose 1701-character text splits into two chunks and querying
with `top_k = 10` returns two sources, both with doc_id "A". -/
theorem c1_query_duplicates_doc_id :
    (query qid embed1 gen0 S1701 ⟨"q", 10, "assistive", []⟩).map
      (fun r => r.sources.map (·.doc_id)) = .ok ["A", "A"] ∧
    ¬ (["A", "A"] : List String).Nodup :=
  ⟨by with_unfolding_all rfl, by decide⟩

/-- C2 counterexample: re-ingesting doc "A" with a text that chunks to the
empty list succeeds with count 0 but leaves the prior generation in place
(app.py lines 331-333 return before the replace logic runs), so the visible
chunk set is not "exactly the chunks of that call". -/
theorem c2_counterexample_empty_reingest :
    (ingest qid embed1 SA ⟨"A", "", []⟩).1 = .ok ⟨"ok", 0⟩ ∧
    chunk_text "" = [] ∧
    ((ingest qid embed1 SA ⟨"A", "", []⟩).2.db.map (fun e => e.2.doc_id)) = ["A"] :=
  ⟨by with_unfolding_all rfl, rfl, by with_unfolding_all rfl⟩

/-- C2 (amended): for every ingest call that succeeds with a nonempty chunk
list, the rows stored for that doc_id afterwards are exactly the chunks of
the call in order (any prior generation is replaced) and the reported count
is the number of chunks; an ingest whose text yields no chunks is instead a
no-op success that leaves the whole state — including any prior generation
of the same doc_id — unchanged. -/
theorem c2_ingest_full_replace (sqrt : ℚ → ℚ) (embed : String → List ℚ)
    (S : EngineState) (req : IngestRequest) (r : IngestResponse) (S' : EngineState)
    (h : ingest sqrt embed S req = (.ok r, S')) :
    ((chunk_text req.text).isEmpty = false →
      (docRows S'.db req.id).map (·.2) =
        ((List.range (chunk_text req.text).length).zip (chunk_text req.text)).map
          (fun p => Row.mk req.id p.1 p.2 req.metadata) ∧
      r = ⟨"ok", (chunk_text req.text).length⟩) ∧
    ((chunk_text req.text).isEmpty = true → S' = S ∧ r = ⟨"ok", 0⟩) := by
  rw [ingest] at h
  split at h
  · rename_i hEmpty
    rw [Prod.mk.injEq, Except.ok.injEq] at h
    exact ⟨fun hfalse => absurd hEmpty (by rw [hfalse]; exact fun c => nomatch c),
      fun _ => ⟨h.2.symm, h.1.symm⟩⟩
  · rename_i hNE
    dsimp only at h
    refine ⟨fun _ => ?_, fun htrue => absurd htrue hNE⟩
    rcases hE : embedChunks sqrt embed (chunk_text req.text) (removeDoc S req.id) []
      with ⟨res, S2⟩
    rw [hE] at h
    have hstate := embedChunks_state sqrt embed (chunk_text req.text) (removeDoc S req.id) []
    rw [hE] at hstate
    cases res with
    | error e => exact absurd h (by simp)
    | ok embedded =>
      dsimp only at h
      have hfinish : ∀ idx : FaissIndex,
          insertPhase S2 req (chunk_text req.text) embedded idx = (.ok r, S') →
          (docRows S'.db req.id).map (·.2) =
            ((List.range (chunk_text req.text).length).zip (chunk_text req.text)).map
              (fun p => Row.mk req.id p.1 p.2 req.metadata) ∧
          r = ⟨"ok", (chunk_text req.text).length⟩ := by
        intro idx hins
        have hfst : (insertPhase S2 req (chunk_text req.text) embedded idx).1 = .ok r := by
          rw [hins]
        have hsnd : (insertPhase S2 req (chunk_text req.text) embedded idx).2 = S' := by
          rw [hins]
        have hr : r = ⟨"ok", (chunk_text req.text).length⟩ := by
          have := (insertPhase_result S2 req (chunk_text req.text) embedded idx).1
          rw [hfst] at this
          exact Except.ok.inj this
        refine ⟨?_, hr⟩
        rw [← hsnd, docRows_insertPhase]
        have hgone : docRows S2.db req.id = [] := by
          rw [hstate.1]
          exact removeDoc_docRows S req.id
        rw [hgone]
        simp
      cases hidx2 : S2.index with
      | none =>
        cases hdim2 : S2.dim with
        | none =>
          rw [hidx2, hdim2] at h
          exact absurd h (by simp)
        | some d =>
          rw [hidx2, hdim2] at h
          exact hfinish _ h
      | some idx =>
        rw [hidx2] at h
        exact hfinish _ h

/-- C2 witness: a concrete successful nonempty ingest on the fresh state
stores exactly the call's single chunk for its doc_id. -/
theorem c2_witness :
    (docRows ((ingest qid embed1 initialState ⟨"C", "hi", []⟩).2).db "C").map (·.2) =
      [Row.mk "C" 0 "hi" []] ∧
    (⟨"ok", 1⟩ : IngestResponse) = ⟨"ok", (chunk_text "hi").length⟩ := by
  have h := c2_ingest_full_replace qid embed1 initialState ⟨"C", "hi", []⟩ ⟨"ok", 1⟩
    ((ingest qid embed1 initialState ⟨"C", "hi", []⟩).2) (by with_unfolding_all rfl)
  have h2 := h.1 (by rfl)
  exact ⟨by rw [h2.1]; with_unfolding_all rfl, h2.2⟩

/-- C3: the claim that an empty embedding leaves the engine state unchanged
is false on the code: embedding happens only after the prior generation has
been deleted (app.py lines 336-352 before 355-368), and the failure is an
uncaught `RuntimeError` (a 500), not a validation error.  Concretely,
re-ingesting doc "A" while the embedding service returns an empty vector
fails but deletes the previously stored chunk, the index and both persisted
files. -/
theorem c3_empty_embedding_mutates_state :
    (ingest qid embedNone SA ⟨"A", "world", []⟩).1 =
      .error (.runtimeError "Ollama embeddings returned no embedding") ∧
    (docRows SA.db "A").length = 1 ∧
    (docRows ((ingest qid embedNone SA ⟨"A", "world", []⟩).2).db "A").length = 0 ∧
    ((ingest qid embedNone SA ⟨"A", "world", []⟩).2).index = none ∧
    ((ingest qid embedNone SA ⟨"A", "world", []⟩).2).faissFile = none ∧
    SA.faissFile ≠ none :=
  ⟨by with_unfolding_all rfl, by with_unfolding_all rfl, by with_unfolding_all rfl,
   by with_unfolding_all rfl, by with_unfolding_all rfl,
   by with_unfolding_all exact fun hcontra => (nomatch hcontra)⟩

/-- C4: every successful query returns its sources sorted by non-increasing
score, never more than `top_k` of them, and — when the two stores are
consistent — exactly `min top_k ntotal` of them (all available hits, no
padding). -/
theorem c4_query_sorted_and_bounded (sqrt : ℚ → ℚ) (embed : String → List ℚ)
    (gen : String → String) (S : EngineState) (req : QueryRequest) (resp : QueryResponse)
    (hok : query sqrt embed gen S req = .ok resp) :
    resp.sources.Pairwise (fun a b => b.score ≤ a.score) ∧
    resp.sources.length ≤ req.top_k ∧
    (Wf S → ∀ idx, S.index = some idx →
      resp.sources.length = min req.top_k idx.entries.length) := by
  rcases query_ok_sources sqrt embed gen S req resp hok with ⟨idx, hidx, hsrc⟩
  refine ⟨?_, ?_, ?_⟩
  · rw [hsrc]
    exact hydrate_search_pairwise _ _ _ _
  · rw [hsrc]
    exact hydrate_search_length_le _ _ _ _
  · intro hWf idx' hidx'
    obtain rfl : idx' = idx := Option.some.inj (hidx'.symm.trans hidx)
    rw [hsrc]
    apply hydrate_search_length_eq
    intro i hi
    have hmem := (hWf.mem_iff i).1 (by rw [indexIds_some hidx]; exact hi)
    rcases List.mem_map.1 hmem with ⟨e, he, rfl⟩
    exact ⟨e.2, he⟩

/-- C4 witness: a concrete query with `top_k = 3` against the one-chunk
state returns one hit, sorted, bounded by 3, with no padding. -/
theorem c4_witness :
    (respOf (query qid embed1 gen0 SA ⟨"q", 3, "assistive", []⟩)).sources.Pairwise
      (fun a b => b.score ≤ a.score) ∧
    (respOf (query qid embed1 gen0 SA ⟨"q", 3, "assistive", []⟩)).sources.length ≤ 3 ∧
    (respOf (query qid embed1 gen0 SA ⟨"q", 3, "assistive", []⟩)).sources.length =
      min 3 ((FaissIndex.mk 1 [(1, [1])]).entries.length) := by
  have h := c4_query_sorted_and_bounded qid embed1 gen0 SA ⟨"q", 3, "assistive", []⟩
    (respOf (query qid embed1 gen0 SA ⟨"q", 3, "assistive", []⟩)) (by with_unfolding_all rfl)
  exact ⟨h.1, h.2.1,
    h.2.2 (wf_ingest qid embed1 initialState ⟨"A", "hello", []⟩ wf_initialState)
      ⟨1, [(1, [1])]⟩ (by with_unfolding_all rfl)⟩

/-- C5: the claim that the query response carries only the source chunks is
false on the code: the handler generates an answer with the LLM and returns
it in the response (app.py lines 503-506, `QueryResponse(answer=answer,
sources=hits)`).  With a generation oracle returning "GENERATED ANSWER", a
successful query's answer field is exactly that generated text. -/
theorem c5_query_includes_generated_answer :
    (query qid embed1 (fun _ => "GENERATED ANSWER") SA ⟨"q", 3, "assistive", []⟩).map
      (fun r => r.answer) = .ok "GENERATED ANSWER" ∧
    "GENERATED ANSWER" ≠ "" :=
  ⟨by with_unfolding_all rfl, by decide⟩

/-- C6: when a delete (or the replace prologue of an ingest) drains the
index to zero entries, the in-memory index and dimension are reset to the
uninitialized state and the persisted snapshot and sidecar are deleted; a
subsequent ingest (or the continuation of the same ingest call) then
succeeds with an embedding of any — possibly different — dimension, fixing
the engine dimension to it. -/
theorem c6_collapse_on_empty (S : EngineState) (idx : FaissIndex) (docId : String)
    (v : Vec) (sqrt : ℚ → ℚ) (req2 : IngestRequest)
    (hidx : S.index = some idx)
    (hex : docRows S.db docId ≠ [])
    (hdrain : (removeIds idx ((docRows S.db docId).map (·.1))).entries = [])
    (hv : v.isEmpty = false)
    (hchunks : (chunk_text req2.text).isEmpty = false) :
    ((admin_delete S ⟨docId⟩).2.index = none ∧ (admin_delete S ⟨docId⟩).2.dim = none ∧
     (admin_delete S ⟨docId⟩).2.faissFile = none ∧ (admin_delete S ⟨docId⟩).2.metaFile = none) ∧
    ((ingest sqrt (fun _ => v) (admin_delete S ⟨docId⟩).2 req2).1 =
        .ok ⟨"ok", (chunk_text req2.text).length⟩ ∧
     (ingest sqrt (fun _ => v) (admin_delete S ⟨docId⟩).2 req2).2.dim = some v.length) ∧
    ((ingest sqrt (fun _ => v) S ⟨docId, req2.text, req2.metadata⟩).1 =
        .ok ⟨"ok", (chunk_text req2.text).length⟩ ∧
     (ingest sqrt (fun _ => v) S ⟨docId, req2.text, req2.metadata⟩).2.dim =
        some v.length) := by
  have hdel : (admin_delete S ⟨docId⟩).2 = removeDoc S docId := admin_delete_state S ⟨docId⟩ hex
  have hcol := removeDoc_collapse S docId idx hidx hex hdrain
  refine ⟨?_, ?_, ?_⟩
  · rw [hdel, hcol]
    exact ⟨rfl, rfl, rfl, rfl⟩
  · apply ingest_after_removeDoc
    · apply removeDoc_dim_none
      rw [hdel, hcol]
    · exact hv
    · exact hchunks
  · apply ingest_after_removeDoc
    · show (removeDoc S docId).dim = none
      rw [hcol]
    · exact hv
    · exact hchunks

/-- C6 witness: deleting the only document of a one-document state collapses
everything, and a follow-up 2-dimensional ingest succeeds even though the
old dimension was 1; the replace path of a direct re-ingest with dimension 2
succeeds the same way. -/
theorem c6_witness :
    ((admin_delete SA ⟨"A"⟩).2.index = none ∧ (admin_delete SA ⟨"A"⟩).2.dim = none ∧
     (admin_delete SA ⟨"A"⟩).2.faissFile = none ∧ (admin_delete SA ⟨"A"⟩).2.metaFile = none) ∧
    ((ingest qid (fun _ => ([1, 2] : Vec)) (admin_delete SA ⟨"A"⟩).2 ⟨"B", "world", []⟩).1 =
        .ok ⟨"ok", 1⟩ ∧
     (ingest qid (fun _ => ([1, 2] : Vec)) (admin_delete SA ⟨"A"⟩).2 ⟨"B", "world", []⟩).2.dim =
        some 2) ∧
    ((ingest qid (fun _ => ([1, 2] : Vec)) SA ⟨"A", "world", []⟩).1 = .ok ⟨"ok", 1⟩ ∧
     (ingest qid (fun _ => ([1, 2] : Vec)) SA ⟨"A", "world", []⟩).2.dim = some 2) :=
  c6_collapse_on_empty SA ⟨1, [(1, [1])]⟩ "A" [1, 2] qid ⟨"B", "world", []⟩
    (by with_unfolding_all rfl)
    (by with_unfolding_all exact fun hcontra => (nomatch hcontra))
    (by with_unfolding_all rfl) rfl rfl

/-- C7: delete removes all of the document's chunks from the metadata store
and from whatever index survives, reports their exact count with status ok,
and deleting a doc_id with no stored chunks returns zero and leaves the
state untouched — never an error. -/
theorem c7_delete_idempotent (S : EngineState) (req : DeleteRequest) :
    (admin_delete S req).1.status = "ok" ∧
    (admin_delete S req).1.chunks_deleted = (docRows S.db req.id).length ∧
    docRows (admin_delete S req).2.db req.id = [] ∧
    (∀ idx, (admin_delete S req).2.index = some idx →
      ∀ k ∈ (docRows S.db req.id).map (·.1), ¬ k ∈ idx.entries.map (·.1)) ∧
    (docRows S.db req.id = [] → (admin_delete S req).2 = S) := by
  by_cases hrows : docRows S.db req.id = []
  · have hcond : ((docRows S.db req.id).map (·.1)).isEmpty = true := by
      rw [hrows]
      rfl
    rw [admin_delete]
    rw [if_pos hcond]
    exact ⟨rfl, by rw [hrows]; rfl, hrows, fun idx hidx k hk => absurd hk (by rw [hrows]; exact
      fun hcontra => nomatch hcontra), fun _ => rfl⟩
  · have hstate := admin_delete_state S req hrows
    refine ⟨?_, ?_, ?_, ?_, fun hcontra => absurd hcontra hrows⟩
    · rw [admin_delete]
      rw [if_neg (by
        intro hcontra
        exact hrows (List.map_eq_nil_iff.1 (List.isEmpty_iff.1 hcontra)))]
    · rw [admin_delete]
      rw [if_neg (by
        intro hcontra
        exact hrows (List.map_eq_nil_iff.1 (List.isEmpty_iff.1 hcontra)))]
      dsimp only
      rw [List.length_map]
    · rw [hstate]
      exact removeDoc_docRows S req.id
    · rw [hstate]
      exact removeDoc_removed S req.id hrows

/-- C7 witness: deleting the stored document reports one removed chunk and
clears it; deleting an unknown doc_id reports zero and changes nothing. -/
theorem c7_witness :
    ((admin_delete SA ⟨"Z"⟩).1.status = "ok" ∧
     (admin_delete SA ⟨"Z"⟩).1.chunks_deleted = (docRows SA.db "Z").length ∧
     docRows (admin_delete SA ⟨"Z"⟩).2.db "Z" = [] ∧
     (∀ idx, (admin_delete SA ⟨"Z"⟩).2.index = some idx →
       ∀ k ∈ (docRows SA.db "Z").map (·.1), ¬ k ∈ idx.entries.map (·.1)) ∧
     (docRows SA.db "Z" = [] → (admin_delete SA ⟨"Z"⟩).2 = SA)) ∧
    (admin_delete SA ⟨"A"⟩).1.chunks_deleted = (docRows SA.db "A").length :=
  ⟨c7_delete_idempotent SA ⟨"Z"⟩, (c7_delete_idempotent SA ⟨"A"⟩).2.1⟩

/-- C8: at the boundary of every mutating operation — ingest (on every
control path, failures included), delete and reset — the set of ids in the
vector index coincides with the set of metadata primary keys, both
duplicate-free: every index id has exactly one row and every row's key is
indexed. -/
theorem c8_bijection_invariant (S : EngineState) (h : Wf S) :
    (∀ (sqrt : ℚ → ℚ) (embed : String → List ℚ) (req : IngestRequest),
      Wf (ingest sqrt embed S req).2) ∧
    (∀ req : DeleteRequest, Wf (admin_delete S req).2) ∧
    Wf (admin_reset S).2 :=
  ⟨fun sqrt embed req => wf_ingest sqrt embed S req h,
   fun req => wf_admin_delete S req h,
   wf_initialState⟩

/-- C8 witness: instantiated at the fresh state, which is consistent. -/
theorem c8_witness :
    Wf (ingest qid embed1 initialState ⟨"A", "hello", []⟩).2 ∧
    Wf (admin_delete initialState ⟨"x"⟩).2 ∧
    Wf (admin_reset initialState).2 :=
  ⟨(c8_bijection_invariant initialState wf_initialState).1 qid embed1 ⟨"A", "hello", []⟩,
   (c8_bijection_invariant initialState wf_initialState).2.1 ⟨"x"⟩,
   (c8_bijection_invariant initialState wf_initialState).2.2⟩

/-- C9: a valid-mode query against an absent or zero-vector index fails with
the dedicated empty-index error — for every embedding and generation oracle,
so no embedding, search or generation is consulted, and the pure handler
changes no state — and that error is distinct from the endpoint's request
validation error and from its other error conditions. -/
theorem c9_empty_index_error (sqrt : ℚ → ℚ) (embed : String → List ℚ)
    (gen : String → String) (S : EngineState) (req : QueryRequest)
    (hmode : normMode req.mode = "assistive" ∨ normMode req.mode = "grounded")
    (hempty : S.index = none ∨ ∃ idx, S.index = some idx ∧ idx.entries.isEmpty = true) :
    query sqrt embed gen S req = .error (.http 400 "index is empty") ∧
    Err.http 400 "index is empty" ≠ Err.http 400 modeErrDetail ∧
    Err.http 400 "index is empty" ≠ Err.http 500 "embedding dim mismatch" ∧
    Err.http 400 "index is empty" ≠
      Err.runtimeError "Ollama embeddings returned no embedding" := by
  refine ⟨?_, by decide, by decide, by decide⟩
  rw [query]
  dsimp only
  have hcond : (!(decide (normMode req.mode = "assistive") ||
      decide (normMode req.mode = "grounded"))) = false := by
    rcases hmode with hm | hm <;> simp [hm]
  rw [if_neg (by rw [hcond]; exact fun hcontra => nomatch hcontra)]
  rcases hempty with hnone | ⟨idx, hidx, hdrain⟩
  · rw [hnone]
  · rw [hidx]
    dsimp only
    rw [if_pos hdrain]

/-- C9 witness: a well-formed assistive query against the fresh
(index-less) state fails with exactly the empty-index error. -/
theorem c9_witness :
    query qid embed1 gen0 initialState ⟨"q", 3, "assistive", []⟩ =
      .error (.http 400 "index is empty") ∧
    Err.http 400 "index is empty" ≠ Err.http 400 modeErrDetail :=
  ⟨(c9_empty_index_error qid embed1 gen0 initialState ⟨"q", 3, "assistive", []⟩
      (Or.inl (by decide)) (Or.inl rfl)).1,
   (c9_empty_index_error qid embed1 gen0 initialState ⟨"q", 3, "assistive", []⟩
      (Or.inl (by decide)) (Or.inl rfl)).2.1⟩

/-- C10: `_l2_normalize` returns its input unchanged whenever the sum of
squared components is less than or equal to zero (in particular for the
all-zero vector), so such a vector is stored or searched without being
unit-normalized. -/
theorem c10_l2_normalize_nonpositive (sqrt : ℚ → ℚ) (vec : Vec)
    (h : vec.foldl (fun s v => s + v * v) 0 ≤ 0) :
    l2_normalize sqrt vec = vec := by
  rw [l2_normalize]
  rw [if_pos h]

/-- C10 witness: the all-zero vector has sum of squares 0 and is returned
unchanged. -/
theorem c10_witness :
    (([0, 0] : Vec).foldl (fun s v => s + v * v) 0 ≤ 0) ∧
    l2_normalize qid [0, 0] = [0, 0] :=
  ⟨by norm_num, c10_l2_normalize_nonpositive qid [0, 0] (by norm_num)⟩

end Engine
